import Mathlib

/-!
Verification development for the Task CRUD store of the Copilot-Training
repository. Two variants of the component are embedded:

* the Go variant (`store.go` and `handlers.go`, emitted by
  `backend/generate_api.sh`): an in-memory `map[int64]Task` with a
  monotone `nextID` counter, plus HTTP handlers that validate input
  before dispatching to the store;
* the Java variant (`TaskService`, `TaskMapper`, `Task` entity): a
  repository of rows with `createdAt`/`updatedAt` timestamps and a
  minutes-to-hours conversion at the DTO boundary.

The Go `map[int64]Task` is embedded as an association list with
distinct keys; `Int` stands for `int64` (the counter starts at 1 and
only ever increments, so 64-bit wraparound is unreachable in any
execution the claims quantify over). Java `double` arithmetic in the
mapper is idealised as `ℚ`; the narrowing `(int)` cast of a `long` is
embedded exactly as two's-complement wraparound.
-/

namespace TaskApi

/-- The Go `Task` type generated from the OpenAPI spec: the store and the
handlers use exactly the fields `Id`, `Title`, `Description`, `Duration`. -/
structure Task where
  id : Int
  title : String
  description : String
  duration : Int
deriving DecidableEq, Repr

/-- The Go `TaskInput` request body type. -/
structure TaskInput where
  title : String
  description : String
  duration : Int
deriving DecidableEq, Repr

/-- Lookup in the association-list embedding of `map[int64]Task`. -/
def mfind {α : Type} (m : List (Int × α)) (k : Int) : Option α :=
  match m with
  | [] => none
  | (k1, v) :: rest => if k1 = k then some v else mfind rest k

/-- Insertion (`tasks[k] = v`): replaces the first entry with key `k`,
or appends when the key is absent. -/
def minsert {α : Type} (m : List (Int × α)) (k : Int) (v : α) : List (Int × α) :=
  match m with
  | [] => [(k, v)]
  | (k1, v1) :: rest => if k1 = k then (k, v) :: rest else (k1, v1) :: minsert rest k v

/-- Deletion (`delete(tasks, k)`): removes every entry with key `k`. -/
def merase {α : Type} (m : List (Int × α)) (k : Int) : List (Int × α) :=
  m.filter (fun p => decide (p.1 ≠ k))

/-- The Go store's package-level state: `tasks map[int64]Task` and
`nextID int64 = 1`. -/
structure Store where
  tasks : List (Int × Task)
  nextID : Int
deriving DecidableEq, Repr

/-- The store state at program start: empty map, `nextID = 1`. -/
def initStore : Store := ⟨[], 1⟩

/-- `GetAllTasks` from `store.go`: returns a slice of all stored tasks. -/
def GetAllTasks (s : Store) : List Task :=
  s.tasks.map Prod.snd

/-- `CreateTask` from `store.go`: builds a `Task` with `Id = nextID` and the
input's fields, stores it under `nextID`, increments `nextID`, returns it. -/
def CreateTask (s : Store) (input : TaskInput) : Task × Store :=
  let task : Task := ⟨s.nextID, input.title, input.description, input.duration⟩
  (task, ⟨minsert s.tasks s.nextID task, s.nextID + 1⟩)

/-- `GetTaskByID` from `store.go`: map lookup, `found` encoded as `Option`. -/
def GetTaskByID (s : Store) (id : Int) : Option Task :=
  mfind s.tasks id

/-- `UpdateTask` from `store.go`: returns `none` (`found = false`) when the
id is absent; otherwise replaces `Title`, `Description`, `Duration` of the
stored task (keeping its `Id`) and stores it back under the same key. -/
def UpdateTask (s : Store) (id : Int) (input : TaskInput) : Option (Task × Store) :=
  match mfind s.tasks id with
  | none => none
  | some task =>
    let task1 : Task :=
      { task with
        title := input.title
        description := input.description
        duration := input.duration }
    some (task1, ⟨minsert s.tasks id task1, s.nextID⟩)

/-- `DeleteTask` from `store.go`: `none` when the id is absent, otherwise the
store with the entry removed (`nextID` untouched). -/
def DeleteTask (s : Store) (id : Int) : Option Store :=
  match mfind s.tasks id with
  | none => none
  | some _ => some ⟨merase s.tasks id, s.nextID⟩

/-- The two failure kinds the handlers produce, with the message strings
they write into the `Error` body. -/
inductive ApiError where
  | invalidInput (message : String)
  | notFound (message : String)
deriving DecidableEq, Repr

/-- The validation guard shared verbatim by `PostTasks` and `PutTasksId` in
`handlers.go`: `input.Title == "" || input.Description == "" || input.Duration < 1`. -/
def invalidGuard (input : TaskInput) : Bool :=
  input.title = "" || input.description = "" || input.duration < 1

/-- `PostTasks` from `handlers.go`: rejects the input when the validation
guard fires, otherwise calls `CreateTask` and returns 201 with the task. -/
def PostTasks (s : Store) (input : TaskInput) : Except ApiError (Task × Store) :=
  if invalidGuard input then
    .error (.invalidInput "Missing or invalid required fields")
  else
    .ok (CreateTask s input)

/-- `PutTasksId` from `handlers.go`: validates the input FIRST, and only when
validation passes calls `UpdateTask`, mapping `found = false` to 404. -/
def PutTasksId (s : Store) (id : Int) (input : TaskInput) : Except ApiError (Task × Store) :=
  if invalidGuard input then
    .error (.invalidInput "Missing or invalid required fields")
  else
    match UpdateTask s id input with
    | none => .error (.notFound "Task not found")
    | some r => .ok r

/-- `GetTasksId` from `handlers.go`: 404 when absent, 200 with the task otherwise. -/
def GetTasksId (s : Store) (id : Int) : Except ApiError Task :=
  match GetTaskByID s id with
  | none => .error (.notFound "Task not found")
  | some task => .ok task

/-- `DeleteTasksId` from `handlers.go`: 404 when absent, 204 otherwise; the
resulting store is returned to model the state change. -/
def DeleteTasksId (s : Store) (id : Int) : Except ApiError Store :=
  match DeleteTask s id with
  | none => .error (.notFound "Task not found")
  | some s1 => .ok s1

/-- A single-threaded client request against the Go backend (the per-request
lock in `store.go` serialises them, so a trace is a list of ops). -/
inductive Op where
  | post (input : TaskInput)
  | put (id : Int) (input : TaskInput)
  | del (id : Int)
  | getOne (id : Int)
  | getAll
deriving DecidableEq, Repr

/-- The store state after one request; failed requests leave it unchanged
(each handler returns before touching the store on validation or lookup
failure). -/
def applyOp (s : Store) (op : Op) : Store :=
  match op with
  | .post input =>
    match PostTasks s input with
    | .ok (_, s1) => s1
    | .error _ => s
  | .put id input =>
    match PutTasksId s id input with
    | .ok (_, s1) => s1
    | .error _ => s
  | .del id =>
    match DeleteTasksId s id with
    | .ok s1 => s1
    | .error _ => s
  | .getOne _ => s
  | .getAll => s

/-- The store state after a whole trace of requests. -/
def runOps (s : Store) : List Op → Store
  | [] => s
  | op :: rest => runOps (applyOp s op) rest

/-- The ids handed out by the successful creates of a trace, in order. -/
def createdIds (s : Store) : List Op → List Int
  | [] => []
  | op :: rest =>
    (match op with
     | .post input =>
       match PostTasks s input with
       | .ok (t, _) => [t.id]
       | .error _ => []
     | _ => []) ++ createdIds (applyOp s op) rest

/-- The number of successful creates in a trace. -/
def countCreates (s : Store) : List Op → Nat
  | [] => 0
  | op :: rest =>
    (match op with
     | .post input =>
       match PostTasks s input with
       | .ok _ => 1
       | .error _ => 0
     | _ => 0) + countCreates (applyOp s op) rest

/-- The number of successful deletes in a trace. -/
def countDeletes (s : Store) : List Op → Nat
  | [] => 0
  | op :: rest =>
    (match op with
     | .del id =>
       match DeleteTasksId s id with
       | .ok _ => 1
       | .error _ => 0
     | _ => 0) + countDeletes (applyOp s op) rest

/-- The keys of the association-list map. -/
def mkeys {α : Type} (m : List (Int × α)) : List Int :=
  m.map Prod.fst

/-- Store well-formedness: the map has distinct keys and every key is
below `nextID`. It holds for `initStore` and is preserved by every
request, so it holds in every reachable state. -/
def WF (s : Store) : Prop :=
  (mkeys s.tasks).Nodup ∧ ∀ k ∈ mkeys s.tasks, k < s.nextID

/-! ## The Java variant: `TaskMapper`, `Task` entity, `TaskService` -/

/-- `Math.round(double)` on a finite value: `⌊x + 1/2⌋` (round half up,
i.e. toward positive infinity on ties), idealising the `double` as a
rational. -/
def javaMathRound (x : ℚ) : Int :=
  ⌊x + 1 / 2⌋

-- Equality of handler results is decidable (used by concrete evaluations).
deriving instance DecidableEq for Except

/-- Java's narrowing `(int)` cast of a `long`: two's-complement wraparound
to the signed 32-bit range. -/
def intCast32 (n : Int) : Int :=
  (n + 2 ^ 31) % 2 ^ 32 - 2 ^ 31

/-- `TaskMapper.convertHoursToMinutes`: `(int) Math.round(hours * MINUTES_PER_HOUR)`
with `MINUTES_PER_HOUR = 60.0`. -/
def convertHoursToMinutes (hours : ℚ) : Int :=
  intCast32 (javaMathRound (hours * 60))

/-- The duration field of `TaskMapper.toResponse`:
`task.getDuration() / MINUTES_PER_HOUR`, minutes to fractional hours. -/
def toResponseDuration (minutes : Int) : ℚ :=
  (minutes : ℚ) / 60

/-- The Java `Task` JPA entity: id, title, description, duration in integer
minutes, and the two `Instant` timestamps (idealised as integers on a
global timeline). -/
structure JTask where
  id : Int
  title : String
  description : String
  duration : Int
  createdAt : Int
  updatedAt : Int
deriving DecidableEq, Repr

/-- The Java `TaskRequest` DTO: title, description, and `estimatedTime` in
fractional hours (a `Double`, idealised as `ℚ`). -/
structure TaskRequest where
  title : String
  description : String
  estimatedTime : ℚ
deriving DecidableEq, Repr

/-- `TaskMapper.updateEntity`: overwrites title, description and the
converted duration on the existing entity; it touches no other field
(in particular neither `id` nor the timestamps). -/
def updateEntity (t : JTask) (r : TaskRequest) : JTask :=
  { t with
    title := r.title
    description := r.description
    duration := convertHoursToMinutes r.estimatedTime }

/-- `taskRepository.findById`: first row whose entity id matches. -/
def jfindById (rows : List JTask) (id : Int) : Option JTask :=
  rows.find? (fun t => t.id == id)

/-- `taskRepository.save` on an entity with an existing id: replaces the
row holding that id (appends when none does). -/
def jsave (rows : List JTask) (t : JTask) : List JTask :=
  match rows with
  | [] => [t]
  | t1 :: rest => if t1.id == t.id then t :: rest else t1 :: jsave rest t

/-- `TaskService.updateTask`: `findTaskOrThrow` (`none` models the thrown
`TaskNotFoundException`), then `updateEntity`, then `save`; returns the
saved entity together with the new row set. -/
def updateTask (rows : List JTask) (id : Int) (r : TaskRequest) :
    Option (JTask × List JTask) :=
  match jfindById rows id with
  | none => none
  | some t =>
    let t1 := updateEntity t r
    some (t1, jsave rows t1)

/-! ## Lemmas about the association-list embedding of the Go map -/

theorem mfind_minsert_self {α : Type} (m : List (Int × α)) (k : Int) (v : α) :
    mfind (minsert m k v) k = some v := by
  induction m with
  | nil => simp [minsert, mfind]
  | cons p rest ih =>
    obtain ⟨k1, v1⟩ := p
    by_cases h : k1 = k <;> simp [minsert, h, mfind, ih]

theorem mfind_minsert_ne {α : Type} (m : List (Int × α)) (k : Int) (v : α)
    (k2 : Int) (h : k2 ≠ k) : mfind (minsert m k v) k2 = mfind m k2 := by
  induction m with
  | nil =>
    simp only [minsert, mfind]
    rw [if_neg (by omega)]
  | cons p rest ih =>
    obtain ⟨k1, v1⟩ := p
    by_cases h1 : k1 = k
    · subst h1
      simp only [minsert, if_pos rfl, mfind]
      rw [if_neg (by omega), if_neg (by omega)]
    · simp only [minsert, if_neg h1, mfind]
      by_cases h2 : k1 = k2 <;> simp [h2, ih]

theorem merase_cons {α : Type} (k1 : Int) (v1 : α) (rest : List (Int × α)) (k : Int) :
    merase ((k1, v1) :: rest) k =
      if k1 = k then merase rest k else (k1, v1) :: merase rest k := by
  by_cases h : k1 = k <;> simp [merase, List.filter_cons, h]

theorem mfind_merase_self {α : Type} (m : List (Int × α)) (k : Int) :
    mfind (merase m k) k = none := by
  induction m with
  | nil => simp [merase, mfind]
  | cons p rest ih =>
    obtain ⟨k1, v1⟩ := p
    rw [merase_cons]
    by_cases h : k1 = k <;> simp [h, mfind, ih]

theorem mfind_merase_ne {α : Type} (m : List (Int × α)) (k k2 : Int)
    (h : k2 ≠ k) : mfind (merase m k) k2 = mfind m k2 := by
  induction m with
  | nil => simp [merase, mfind]
  | cons p rest ih =>
    obtain ⟨k1, v1⟩ := p
    rw [merase_cons]
    by_cases h1 : k1 = k
    · rw [if_pos h1, ih]
      simp only [mfind]
      rw [if_neg (by omega)]
    · rw [if_neg h1]
      simp only [mfind]
      by_cases h2 : k1 = k2 <;> simp [h2, ih]

theorem merase_eq_self_of_absent {α : Type} (m : List (Int × α)) (k : Int)
    (h : mfind m k = none) : merase m k = m := by
  induction m with
  | nil => rfl
  | cons p rest ih =>
    obtain ⟨k1, v1⟩ := p
    by_cases h1 : k1 = k
    · simp [mfind, h1] at h
    · simp only [mfind, if_neg h1] at h
      rw [merase_cons, if_neg h1, ih h]

theorem mfind_eq_none_iff {α : Type} (m : List (Int × α)) (k : Int) :
    mfind m k = none ↔ k ∉ mkeys m := by
  induction m with
  | nil => simp [mfind, mkeys]
  | cons p rest ih =>
    obtain ⟨k1, v1⟩ := p
    by_cases h : k1 = k
    · simp [mfind, mkeys, h, ih]
    · simp [mfind, mkeys, h, ih]
      tauto

theorem minsert_eq_append {α : Type} (m : List (Int × α)) (k : Int) (v : α)
    (h : mfind m k = none) : minsert m k v = m ++ [(k, v)] := by
  induction m with
  | nil => simp [minsert]
  | cons p rest ih =>
    obtain ⟨k1, v1⟩ := p
    by_cases h1 : k1 = k
    · simp [mfind, h1] at h
    · simp only [mfind, if_neg h1] at h
      simp [minsert, h1, ih h]

theorem mkeys_minsert_of_found {α : Type} (m : List (Int × α)) (k : Int) (v w : α)
    (h : mfind m k = some w) : mkeys (minsert m k v) = mkeys m := by
  induction m with
  | nil => simp [mfind] at h
  | cons p rest ih =>
    obtain ⟨k1, v1⟩ := p
    by_cases h1 : k1 = k
    · simp [minsert, h1, mkeys]
    · simp only [mfind, if_neg h1] at h
      simp [minsert, h1, mkeys] at ih ⊢
      exact ih h

theorem length_minsert_of_found {α : Type} (m : List (Int × α)) (k : Int) (v w : α)
    (h : mfind m k = some w) : (minsert m k v).length = m.length := by
  induction m with
  | nil => simp [mfind] at h
  | cons p rest ih =>
    obtain ⟨k1, v1⟩ := p
    by_cases h1 : k1 = k
    · simp [minsert, h1]
    · simp only [mfind, if_neg h1] at h
      simp [minsert, h1, ih h]

theorem length_merase_of_found {α : Type} (m : List (Int × α)) (k : Int) (w : α)
    (hnd : (mkeys m).Nodup) (h : mfind m k = some w) :
    (merase m k).length + 1 = m.length := by
  induction m with
  | nil => simp [mfind] at h
  | cons p rest ih =>
    obtain ⟨k1, v1⟩ := p
    simp only [mkeys, List.map_cons, List.nodup_cons] at hnd
    by_cases h1 : k1 = k
    · subst h1
      have hnone : mfind rest k1 = none := by
        rw [mfind_eq_none_iff]
        exact hnd.1
      rw [merase_cons, if_pos rfl, merase_eq_self_of_absent rest k1 hnone]
      simp
    · simp only [mfind, if_neg h1] at h
      rw [merase_cons, if_neg h1]
      have := ih hnd.2 h
      simp only [List.length_cons]
      omega

theorem mkeys_minsert_absent {α : Type} (m : List (Int × α)) (k : Int) (v : α)
    (h : mfind m k = none) : mkeys (minsert m k v) = mkeys m ++ [k] := by
  rw [minsert_eq_append m k v h]
  simp [mkeys]

theorem mkeys_merase_sublist {α : Type} (m : List (Int × α)) (k : Int) :
    (mkeys (merase m k)).Sublist (mkeys m) := by
  exact List.Sublist.map Prod.fst (List.filter_sublist m)

/-! ## Handler characterizations and well-formedness preservation -/

theorem PostTasks_of_valid (s : Store) (input : TaskInput)
    (h : invalidGuard input = false) :
    PostTasks s input = .ok (CreateTask s input) := by
  simp [PostTasks, h]

theorem PostTasks_of_invalid (s : Store) (input : TaskInput)
    (h : invalidGuard input = true) :
    PostTasks s input = .error (.invalidInput "Missing or invalid required fields") := by
  simp [PostTasks, h]

theorem applyOp_post_valid (s : Store) (input : TaskInput)
    (h : invalidGuard input = false) :
    applyOp s (.post input) = (CreateTask s input).2 := by
  simp [applyOp, PostTasks_of_valid s input h]

theorem applyOp_post_invalid (s : Store) (input : TaskInput)
    (h : invalidGuard input = true) :
    applyOp s (.post input) = s := by
  simp [applyOp, PostTasks_of_invalid s input h]

theorem WF_initStore : WF initStore := by
  constructor <;> simp [initStore, mkeys]

theorem mfind_nextID_none (s : Store) (h : WF s) :
    mfind s.tasks s.nextID = none := by
  rw [mfind_eq_none_iff]
  intro hmem
  exact absurd (h.2 s.nextID hmem) (lt_irrefl s.nextID)

theorem WF_CreateTask (s : Store) (input : TaskInput) (h : WF s) :
    WF (CreateTask s input).2 := by
  have hnone := mfind_nextID_none s h
  constructor
  · show (mkeys (minsert s.tasks s.nextID _)).Nodup
    rw [mkeys_minsert_absent _ _ _ hnone]
    rw [List.nodup_append]
    refine ⟨h.1, List.nodup_singleton _, ?_⟩
    intro k hk hk1
    simp only [List.mem_singleton] at hk1
    subst hk1
    exact absurd (h.2 _ hk) (lt_irrefl _)
  · show ∀ k ∈ mkeys (minsert s.tasks s.nextID _), k < s.nextID + 1
    rw [mkeys_minsert_absent _ _ _ hnone]
    intro k hk
    rcases List.mem_append.1 hk with hk | hk
    · exact lt_trans (h.2 k hk) (by omega)
    · simp only [List.mem_singleton] at hk
      omega

theorem WF_UpdateTask (s : Store) (id : Int) (input : TaskInput)
    (t1 : Task) (s1 : Store) (hu : UpdateTask s id input = some (t1, s1))
    (h : WF s) : WF s1 := by
  unfold UpdateTask at hu
  cases hf : mfind s.tasks id with
  | none => rw [hf] at hu; exact absurd hu (by simp)
  | some task =>
    rw [hf] at hu
    simp only [Option.some_inj, Prod.mk.injEq] at hu
    obtain ⟨ht1, hs1⟩ := hu
    subst hs1
    constructor
    · show (mkeys (minsert s.tasks id _)).Nodup
      rw [mkeys_minsert_of_found _ _ _ task hf]
      exact h.1
    · show ∀ k ∈ mkeys (minsert s.tasks id _), k < s.nextID
      rw [mkeys_minsert_of_found _ _ _ task hf]
      exact h.2

theorem WF_DeleteTask (s : Store) (id : Int) (s1 : Store)
    (hd : DeleteTask s id = some s1) (h : WF s) : WF s1 := by
  unfold DeleteTask at hd
  cases hf : mfind s.tasks id with
  | none => rw [hf] at hd; exact absurd hd (by simp)
  | some task =>
    rw [hf] at hd
    simp only [Option.some_inj] at hd
    subst hd
    constructor
    · exact (mkeys_merase_sublist s.tasks id).nodup h.1
    · intro k hk
      exact h.2 k ((mkeys_merase_sublist s.tasks id).subset hk)

theorem WF_applyOp (s : Store) (op : Op) (h : WF s) : WF (applyOp s op) := by
  cases op with
  | post input =>
    by_cases hv : invalidGuard input
    · rw [applyOp_post_invalid s input hv]; exact h
    · rw [applyOp_post_valid s input (by simpa using hv)]
      exact WF_CreateTask s input h
  | put id input =>
    by_cases hv : invalidGuard input
    · simp [applyOp, PutTasksId, hv]; exact h
    · simp only [applyOp, PutTasksId, Bool.not_eq_true] at hv ⊢
      rw [if_neg (by simp [hv])]
      cases hu : UpdateTask s id input with
      | none => exact h
      | some r => exact WF_UpdateTask s id input r.1 r.2 (by rw [hu]) h
  | del id =>
    simp only [applyOp, DeleteTasksId]
    cases hd : DeleteTask s id with
    | none => exact h
    | some s1 => exact WF_DeleteTask s id s1 hd h
  | getOne id => exact h
  | getAll => exact h

theorem applyOp_nextID_le (s : Store) (op : Op) :
    s.nextID ≤ (applyOp s op).nextID := by
  cases op with
  | post input =>
    by_cases hv : invalidGuard input
    · rw [applyOp_post_invalid s input hv]
    · rw [applyOp_post_valid s input (by simpa using hv)]
      simp only [CreateTask]
      omega
  | put id input =>
    by_cases hv : invalidGuard input
    · simp [applyOp, PutTasksId, hv]
    · simp only [applyOp, PutTasksId, Bool.not_eq_true] at hv ⊢
      rw [if_neg (by simp [hv])]
      cases hu : UpdateTask s id input with
      | none => exact le_refl _
      | some r =>
        unfold UpdateTask at hu
        cases hf : mfind s.tasks id with
        | none => rw [hf] at hu; exact absurd hu (by simp)
        | some task =>
          rw [hf] at hu
          simp only [Option.some_inj] at hu
          subst hu
          exact le_refl _
  | del id =>
    simp only [applyOp, DeleteTasksId]
    cases hd : DeleteTask s id with
    | none => exact le_refl _
    | some s1 =>
      unfold DeleteTask at hd
      cases hf : mfind s.tasks id with
      | none => rw [hf] at hd; exact absurd hd (by simp)
      | some task =>
        rw [hf] at hd
        simp only [Option.some_inj] at hd
        subst hd
        exact le_refl _
  | getOne id => exact le_refl _
  | getAll => exact le_refl _

/-! ## The ids handed out along a trace -/

theorem createdIds_cons_post_valid (s : Store) (input : TaskInput) (rest : List Op)
    (h : invalidGuard input = false) :
    createdIds s (.post input :: rest) =
      s.nextID :: createdIds (CreateTask s input).2 rest := by
  simp [createdIds, PostTasks_of_valid s input h, applyOp_post_valid s input h, CreateTask]

theorem createdIds_cons_post_invalid (s : Store) (input : TaskInput) (rest : List Op)
    (h : invalidGuard input = true) :
    createdIds s (.post input :: rest) = createdIds s rest := by
  simp [createdIds, PostTasks_of_invalid s input h, applyOp_post_invalid s input h]

theorem createdIds_cons_put (s : Store) (id : Int) (input : TaskInput) (rest : List Op) :
    createdIds s (.put id input :: rest) = createdIds (applyOp s (.put id input)) rest := by
  simp [createdIds]

theorem createdIds_cons_del (s : Store) (id : Int) (rest : List Op) :
    createdIds s (.del id :: rest) = createdIds (applyOp s (.del id)) rest := by
  simp [createdIds]

theorem createdIds_cons_getOne (s : Store) (id : Int) (rest : List Op) :
    createdIds s (.getOne id :: rest) = createdIds s rest := by
  simp [createdIds, applyOp]

theorem createdIds_cons_getAll (s : Store) (rest : List Op) :
    createdIds s (.getAll :: rest) = createdIds s rest := by
  simp [createdIds, applyOp]

theorem nextID_CreateTask (s : Store) (input : TaskInput) :
    (CreateTask s input).2.nextID = s.nextID + 1 := rfl

theorem le_of_mem_createdIds (ops : List Op) :
    ∀ (s : Store) (x : Int), x ∈ createdIds s ops → s.nextID ≤ x := by
  induction ops with
  | nil =>
    intro s x hx
    simp [createdIds] at hx
  | cons op rest ih =>
    intro s x hx
    cases op with
    | post input =>
      by_cases hv : invalidGuard input
      · rw [createdIds_cons_post_invalid s input rest hv] at hx
        exact ih s x hx
      · rw [createdIds_cons_post_valid s input rest (by simpa using hv)] at hx
        rcases List.mem_cons.1 hx with h | h
        · omega
        · have := ih _ x h
          rw [nextID_CreateTask] at this
          omega
    | put id input =>
      rw [createdIds_cons_put] at hx
      have h1 := ih _ x hx
      have h2 := applyOp_nextID_le s (.put id input)
      omega
    | del id =>
      rw [createdIds_cons_del] at hx
      have h1 := ih _ x hx
      have h2 := applyOp_nextID_le s (.del id)
      omega
    | getOne id =>
      rw [createdIds_cons_getOne] at hx
      exact ih s x hx
    | getAll =>
      rw [createdIds_cons_getAll] at hx
      exact ih s x hx

theorem createdIds_pairwise (ops : List Op) :
    ∀ s : Store, (createdIds s ops).Pairwise (· < ·) := by
  induction ops with
  | nil =>
    intro s
    simp [createdIds]
  | cons op rest ih =>
    intro s
    cases op with
    | post input =>
      by_cases hv : invalidGuard input
      · rw [createdIds_cons_post_invalid s input rest hv]
        exact ih s
      · rw [createdIds_cons_post_valid s input rest (by simpa using hv)]
        refine List.Pairwise.cons ?_ (ih _)
        intro y hy
        have := le_of_mem_createdIds rest _ y hy
        rw [nextID_CreateTask] at this
        omega
    | put id input =>
      rw [createdIds_cons_put]
      exact ih _
    | del id =>
      rw [createdIds_cons_del]
      exact ih _
    | getOne id =>
      rw [createdIds_cons_getOne]
      exact ih s
    | getAll =>
      rw [createdIds_cons_getAll]
      exact ih s

/-! ## Counting successful creates and deletes along a trace -/

theorem length_CreateTask (s : Store) (input : TaskInput) (h : WF s) :
    (CreateTask s input).2.tasks.length = s.tasks.length + 1 := by
  show (minsert s.tasks s.nextID _).length = s.tasks.length + 1
  rw [minsert_eq_append _ _ _ (mfind_nextID_none s h)]
  simp

theorem length_applyOp_put (s : Store) (id : Int) (input : TaskInput) :
    (applyOp s (.put id input)).tasks.length = s.tasks.length := by
  by_cases hv : invalidGuard input
  · simp [applyOp, PutTasksId, hv]
  · simp only [applyOp, PutTasksId]
    rw [if_neg (by simp [hv])]
    cases hf : mfind s.tasks id with
    | none => simp [UpdateTask, hf]
    | some task =>
      simp only [UpdateTask, hf]
      exact length_minsert_of_found _ _ _ task hf

theorem runOps_cons (s : Store) (op : Op) (rest : List Op) :
    runOps s (op :: rest) = runOps (applyOp s op) rest := rfl

theorem countCreates_cons_post_valid (s : Store) (input : TaskInput) (rest : List Op)
    (h : invalidGuard input = false) :
    countCreates s (.post input :: rest) =
      1 + countCreates (CreateTask s input).2 rest := by
  simp [countCreates, PostTasks_of_valid s input h, applyOp_post_valid s input h]

theorem countCreates_cons_post_invalid (s : Store) (input : TaskInput) (rest : List Op)
    (h : invalidGuard input = true) :
    countCreates s (.post input :: rest) = countCreates s rest := by
  simp [countCreates, PostTasks_of_invalid s input h, applyOp_post_invalid s input h]

theorem countCreates_cons_other (s : Store) (op : Op) (rest : List Op)
    (h : ∀ input, op ≠ .post input) :
    countCreates s (op :: rest) = countCreates (applyOp s op) rest := by
  cases op with
  | post input => exact absurd rfl (h input)
  | put id input => simp [countCreates]
  | del id => simp [countCreates]
  | getOne id => simp [countCreates]
  | getAll => simp [countCreates]

theorem countDeletes_cons_del_found (s : Store) (id : Int) (rest : List Op)
    (s1 : Store) (h : DeleteTask s id = some s1) :
    countDeletes s (.del id :: rest) = 1 + countDeletes s1 rest := by
  simp [countDeletes, DeleteTasksId, h, applyOp]

theorem countDeletes_cons_del_absent (s : Store) (id : Int) (rest : List Op)
    (h : DeleteTask s id = none) :
    countDeletes s (.del id :: rest) = countDeletes s rest := by
  simp [countDeletes, DeleteTasksId, h, applyOp]

theorem countDeletes_cons_other (s : Store) (op : Op) (rest : List Op)
    (h : ∀ id, op ≠ .del id) :
    countDeletes s (op :: rest) = countDeletes (applyOp s op) rest := by
  cases op with
  | post input => simp [countDeletes]
  | put id input => simp [countDeletes]
  | del id => exact absurd rfl (h id)
  | getOne id => simp [countDeletes]
  | getAll => simp [countDeletes]

theorem runOps_length (ops : List Op) :
    ∀ s : Store, WF s →
      (runOps s ops).tasks.length + countDeletes s ops =
        s.tasks.length + countCreates s ops := by
  induction ops with
  | nil =>
    intro s _
    simp [runOps, countDeletes, countCreates]
  | cons op rest ih =>
    intro s hwf
    rw [runOps_cons]
    cases op with
    | post input =>
      by_cases hv : invalidGuard input
      · rw [countCreates_cons_post_invalid s input rest hv,
          countDeletes_cons_other s _ rest (by intro id h; cases h),
          applyOp_post_invalid s input hv]
        exact ih s hwf
      · have hv2 : invalidGuard input = false := by simpa using hv
        rw [countCreates_cons_post_valid s input rest hv2,
          countDeletes_cons_other s _ rest (by intro id h; cases h),
          applyOp_post_valid s input hv2]
        have := ih (CreateTask s input).2 (WF_CreateTask s input hwf)
        rw [length_CreateTask s input hwf] at this
        omega
    | put id input =>
      rw [countCreates_cons_other s _ rest (by intro i h; cases h),
        countDeletes_cons_other s _ rest (by intro i h; cases h)]
      have := ih (applyOp s (.put id input)) (WF_applyOp s _ hwf)
      rw [length_applyOp_put s id input] at this
      omega
    | del id =>
      rw [countCreates_cons_other s _ rest (by intro i h; cases h)]
      cases hd : DeleteTask s id with
      | none =>
        have happ : applyOp s (.del id) = s := by
          simp [applyOp, DeleteTasksId, hd]
        rw [countDeletes_cons_del_absent s id rest hd, happ]
        exact ih s hwf
      | some s1 =>
        have happ : applyOp s (.del id) = s1 := by
          simp [applyOp, DeleteTasksId, hd]
        rw [countDeletes_cons_del_found s id rest s1 hd, happ]
        have hlen : s1.tasks.length + 1 = s.tasks.length := by
          unfold DeleteTask at hd
          cases hf : mfind s.tasks id with
          | none => rw [hf] at hd; exact absurd hd (by simp)
          | some task =>
            rw [hf] at hd
            simp only [Option.some_inj] at hd
            subst hd
            exact length_merase_of_found s.tasks id task hwf.1 hf
        have := ih s1 (WF_DeleteTask s id s1 hd hwf)
        omega
    | getOne id =>
      rw [countCreates_cons_other s _ rest (by intro i h; cases h),
        countDeletes_cons_other s _ rest (by intro i h; cases h)]
      exact ih (applyOp s (.getOne id)) (WF_applyOp s _ hwf)
    | getAll =>
      rw [countCreates_cons_other s _ rest (by intro i h; cases h),
        countDeletes_cons_other s _ rest (by intro i h; cases h)]
      exact ih (applyOp s .getAll) (WF_applyOp s _ hwf)

/-! ## Lemmas about the Java repository embedding -/

theorem jfindById_id (rows : List JTask) (id : Int) (t : JTask)
    (h : jfindById rows id = some t) : t.id = id := by
  have := List.find?_some h
  simpa using this

theorem jfindById_jsave (rows : List JTask) (id : Int) (t t1 : JTask)
    (hfind : jfindById rows id = some t) (hid : t1.id = t.id) :
    jfindById (jsave rows t1) id = some t1 := by
  induction rows with
  | nil => simp [jfindById] at hfind
  | cons r rest ih =>
    have htid : t.id = id := jfindById_id _ _ _ hfind
    by_cases hr : r.id = id
    · have hfr : t = r := by
        simp [jfindById, List.find?_cons, hr] at hfind
        exact hfind.symm
      subst hfr
      unfold jsave
      rw [if_pos (by simp [hid])]
      simp [jfindById, List.find?_cons, hid, htid]
    · have hfind2 : jfindById rest id = some t := by
        simpa [jfindById, List.find?_cons, hr] using hfind
      unfold jsave
      rw [if_neg (by simp [hid, htid, hr])]
      simpa [jfindById, List.find?_cons, hr] using ih hfind2

theorem intCast32_eq_self (n : Int) (h1 : -(2 ^ 31) ≤ n) (h2 : n < 2 ^ 31) :
    intCast32 n = n := by
  unfold intCast32
  have e1 : (2 : Int) ^ 31 = 2147483648 := by norm_num
  have e2 : (2 : Int) ^ 32 = 4294967296 := by norm_num
  rw [e1, e2] at *
  omega

/-- `TaskMapper.toEntity` composed with the entity constructor
`new Task(title, description, minutes)`: a fresh entity with the converted
duration and `createdAt = updatedAt = Instant.now()`; the id is assigned by
the database on save and passed explicitly here. -/
def toEntity (r : TaskRequest) (id now : Int) : JTask :=
  ⟨id, r.title, r.description, convertHoursToMinutes r.estimatedTime, now, now⟩

/-! ## Concrete fixtures used by witnesses and counterexamples -/

/-- A sample valid Go input. -/
def inputEx : TaskInput := ⟨"Write docs", "d", 120⟩

/-- A sample stored Go task. -/
def taskEx : Task := ⟨1, "t", "d", 5⟩

/-- A sample one-task Go store. -/
def storeEx : Store := ⟨[(1, taskEx)], 2⟩

theorem storeEx_WF : WF storeEx := by
  constructor <;> decide

/-- A sample Java entity row. -/
def jtask0 : JTask := ⟨1, "a", "d", 60, 10, 10⟩

/-- A sample Java repository content. -/
def jrows0 : List JTask := [jtask0]

/-- A sample Java update request (1.5 hours would be 90 minutes; 2 hours is 120). -/
def jreq0 : TaskRequest := ⟨"b", "e", 2⟩

/-! ## Claim theorems -/

/-- C1 counterexample: `update(999, {title:"x", duration:10})` (description
absent, hence decoded as `""`) on the empty store fails with `InvalidInput`,
not `NotFound`: the Go handler validates the payload before the store ever
checks existence. -/
theorem C1_counterexample :
    PutTasksId initStore 999 ⟨"x", "", 10⟩ =
      Except.error (ApiError.invalidInput "Missing or invalid required fields") := by
  rfl

/-- C1 (amended): for an id that is not in the store, `PutTasksId` fails
with `InvalidInput` when the payload fails validation and with `NotFound`
only when the payload passes validation: validation is checked before
existence, not after. -/
theorem C1_update_validation_before_existence (s : Store) (id : Int)
    (input : TaskInput) (h : mfind s.tasks id = none) :
    PutTasksId s id input =
      (if invalidGuard input then
        Except.error (ApiError.invalidInput "Missing or invalid required fields")
      else
        Except.error (ApiError.notFound "Task not found")) := by
  by_cases hv : invalidGuard input
  · simp [PutTasksId, hv]
  · simp [PutTasksId, hv, UpdateTask, h]

/-- C1 witness: on the empty store, a fully valid payload against id 999
does produce `NotFound`. -/
theorem C1_witness :
    PutTasksId initStore 999 ⟨"x", "d", 10⟩ =
      Except.error (ApiError.notFound "Task not found") := by
  rw [C1_update_validation_before_existence initStore 999 ⟨"x", "d", 10⟩ rfl]
  rfl

/-- C2: a successful `TaskService.updateTask` returns and stores an entity
with the same `id` and the same `createdAt` as the entity it found, and its
`updatedAt` is ≥ the previous `updatedAt` (in this code it is exactly equal:
`updateEntity` does not touch the timestamps). -/
theorem C2_update_preserves_id_createdAt (rows : List JTask) (id : Int)
    (r : TaskRequest) (t t1 : JTask) (rows1 : List JTask)
    (hfind : jfindById rows id = some t)
    (hupd : updateTask rows id r = some (t1, rows1)) :
    t1.id = t.id ∧ t1.createdAt = t.createdAt ∧ t.updatedAt ≤ t1.updatedAt ∧
      jfindById rows1 id = some t1 := by
  unfold updateTask at hupd
  rw [hfind] at hupd
  simp only [Option.some_inj, Prod.mk.injEq] at hupd
  obtain ⟨ht1, hrows1⟩ := hupd
  subst ht1
  subst hrows1
  exact ⟨rfl, rfl, le_refl _, jfindById_jsave rows id t _ hfind rfl⟩

/-- C2 witness: updating the one-row repository with a fresh title,
description and 2-hour estimate keeps id and createdAt and leaves updatedAt
≥ its old value. -/
theorem C2_witness :
    jfindById jrows0 1 = some jtask0 ∧
    updateTask jrows0 1 jreq0 =
      some (updateEntity jtask0 jreq0, jsave jrows0 (updateEntity jtask0 jreq0)) ∧
    (updateEntity jtask0 jreq0).createdAt = jtask0.createdAt ∧
    jtask0.updatedAt ≤ (updateEntity jtask0 jreq0).updatedAt :=
  ⟨rfl, rfl,
    (C2_update_preserves_id_createdAt jrows0 1 jreq0 jtask0
      (updateEntity jtask0 jreq0) (jsave jrows0 (updateEntity jtask0 jreq0))
      rfl rfl).2.1,
    (C2_update_preserves_id_createdAt jrows0 1 jreq0 jtask0
      (updateEntity jtask0 jreq0) (jsave jrows0 (updateEntity jtask0 jreq0))
      rfl rfl).2.2.1⟩

/-- C3 counterexample: an input with a valid title and duration but an empty
(or absent, which decodes to empty) description is rejected by the Go create
handler with `InvalidInput` — the description is not optional in this code. -/
theorem C3_counterexample :
    PostTasks initStore ⟨"T", "", 30⟩ =
      Except.error (ApiError.invalidInput "Missing or invalid required fields") := by
  rfl

/-- C3 (amended): for inputs with a valid title and duration, create fails
with `InvalidInput` exactly when the description is empty (or absent, which
the JSON decoder maps to the empty string); with a non-empty description it
succeeds and stores the input's description. -/
theorem C3_description_required (s : Store) (input : TaskInput)
    (ht : input.title ≠ "") (hd : ¬input.duration < 1) :
    (input.description = "" →
      PostTasks s input =
        Except.error (ApiError.invalidInput "Missing or invalid required fields")) ∧
    (input.description ≠ "" →
      PostTasks s input = Except.ok (CreateTask s input)) := by
  constructor
  · intro h
    apply PostTasks_of_invalid
    simp [invalidGuard, h]
  · intro h
    apply PostTasks_of_valid
    simp [invalidGuard, ht, h, hd]

/-- C3 witness: a non-empty description is accepted and stored verbatim. -/
theorem C3_witness :
    PostTasks initStore ⟨"T", "d", 30⟩ =
      Except.ok (⟨1, "T", "d", 30⟩, ⟨[(1, ⟨1, "T", "d", 30⟩)], 2⟩) := by
  rw [(C3_description_required initStore ⟨"T", "d", 30⟩ (by decide) (by decide)).2
    (by decide)]
  rfl

/-- C4 counterexample: a title consisting only of whitespace is NOT rejected:
the Go handler compares the raw title against `""` without trimming, so
`create({title:"   ", ...})` succeeds and stores the whitespace title. -/
theorem C4_counterexample :
    PostTasks initStore ⟨"   ", "d", 30⟩ =
      Except.ok (⟨1, "   ", "d", 30⟩, ⟨[(1, ⟨1, "   ", "d", 30⟩)], 2⟩) := by
  rfl

/-- C4 (amended): for inputs whose title is exactly the empty string (no
trimming is performed), create fails with `InvalidInput` carrying the fixed
generic message (the field is not named), the store is unchanged, and no
identifier is consumed: the created-id trace of any continuation is exactly
as if the failed call had never happened. -/
theorem C4_empty_title_rejected (s : Store) (input : TaskInput)
    (h : input.title = "") :
    PostTasks s input =
      Except.error (ApiError.invalidInput "Missing or invalid required fields") ∧
    applyOp s (.post input) = s ∧
    ∀ rest : List Op, createdIds s (.post input :: rest) = createdIds s rest := by
  have hv : invalidGuard input = true := by simp [invalidGuard, h]
  exact ⟨PostTasks_of_invalid s input hv, applyOp_post_invalid s input hv,
    fun rest => createdIds_cons_post_invalid s input rest hv⟩

/-- C4 witness: the exactly-empty title is rejected and leaves the store
untouched. -/
theorem C4_witness :
    PostTasks initStore ⟨"", "d", 30⟩ =
      Except.error (ApiError.invalidInput "Missing or invalid required fields") ∧
    applyOp initStore (.post ⟨"", "d", 30⟩) = initStore :=
  ⟨(C4_empty_title_rejected initStore ⟨"", "d", 30⟩ rfl).1,
    (C4_empty_title_rejected initStore ⟨"", "d", 30⟩ rfl).2.1⟩

/-- C5: along any trace of requests started from the initial store, the ids
handed out by successful creates are pairwise distinct — in particular an id
is never assigned again later, whether or not its task has been deleted in
between (the Go store only ever increments `nextID` and never reuses a
value). -/
theorem C5_created_ids_distinct (ops : List Op) :
    (createdIds initStore ops).Nodup := by
  exact (createdIds_pairwise ops initStore).imp (fun hlt => ne_of_lt hlt)

/-- C6: when `PostTasks` succeeds, looking the returned task's id up — at the
store level and through the GET handler — yields a task equal in every field
to the one returned by create. -/
theorem C6_create_then_get (s : Store) (input : TaskInput) (t : Task)
    (s1 : Store) (h : PostTasks s input = Except.ok (t, s1)) :
    GetTaskByID s1 t.id = some t ∧ GetTasksId s1 t.id = Except.ok t := by
  by_cases hv : invalidGuard input
  · rw [PostTasks_of_invalid s input hv] at h
    exact absurd h (by simp)
  · rw [PostTasks_of_valid s input (by simpa using hv)] at h
    simp only [Except.ok.injEq] at h
    obtain ⟨ht, hs1⟩ : t = (CreateTask s input).1 ∧ s1 = (CreateTask s input).2 :=
      ⟨by rw [h], by rw [h]⟩
    subst ht
    subst hs1
    have hfind :
        GetTaskByID (CreateTask s input).2 (CreateTask s input).1.id =
          some (CreateTask s input).1 := by
      show mfind (minsert s.tasks s.nextID _) s.nextID = _
      exact mfind_minsert_self _ _ _
    refine ⟨hfind, ?_⟩
    simp [GetTasksId, hfind]

/-- C6 witness: creating from the empty store and reading id 1 back returns
the identical task. -/
theorem C6_witness :
    GetTaskByID (⟨[(1, ⟨1, "Write docs", "d", 120⟩)], 2⟩ : Store) 1 =
      some ⟨1, "Write docs", "d", 120⟩ :=
  (C6_create_then_get initStore ⟨"Write docs", "d", 120⟩
    ⟨1, "Write docs", "d", 120⟩ ⟨[(1, ⟨1, "Write docs", "d", 120⟩)], 2⟩ rfl).1

/-- C7: deleting a currently stored id succeeds (removing the entry and
leaving `nextID` alone); afterwards a GET on that id fails with `NotFound`
and a second DELETE also fails with `NotFound`. -/
theorem C7_delete_semantics (s : Store) (id : Int) (t : Task)
    (h : GetTaskByID s id = some t) :
    DeleteTasksId s id = Except.ok ⟨merase s.tasks id, s.nextID⟩ ∧
    GetTasksId ⟨merase s.tasks id, s.nextID⟩ id =
      Except.error (ApiError.notFound "Task not found") ∧
    DeleteTasksId ⟨merase s.tasks id, s.nextID⟩ id =
      Except.error (ApiError.notFound "Task not found") := by
  have hf : mfind s.tasks id = some t := h
  have hnone : mfind (merase s.tasks id) id = none := mfind_merase_self s.tasks id
  refine ⟨?_, ?_, ?_⟩
  · simp [DeleteTasksId, DeleteTask, hf]
  · simp [GetTasksId, GetTaskByID, hnone]
  · simp [DeleteTasksId, DeleteTask, hnone]

/-- C7 witness: on a one-task store, delete then get then delete behaves as
claimed. -/
theorem C7_witness :
    GetTaskByID storeEx 1 = some taskEx ∧
    GetTasksId ⟨merase storeEx.tasks 1, storeEx.nextID⟩ 1 =
      Except.error (ApiError.notFound "Task not found") ∧
    DeleteTasksId ⟨merase storeEx.tasks 1, storeEx.nextID⟩ 1 =
      Except.error (ApiError.notFound "Task not found") :=
  ⟨rfl, (C7_delete_semantics storeEx 1 taskEx rfl).2.1,
    (C7_delete_semantics storeEx 1 taskEx rfl).2.2⟩

/-- C8: after any trace of requests from the initial store, the length of
the list returned by `GetAllTasks` equals the number of successful creates
minus the number of successful deletes (deletes never outnumber creates);
`GetAllTasks` cannot fail by construction and returns the empty list on the
initial (empty) store. -/
theorem C8_listAll_length (ops : List Op) :
    (GetAllTasks (runOps initStore ops)).length =
      countCreates initStore ops - countDeletes initStore ops ∧
    countDeletes initStore ops ≤ countCreates initStore ops ∧
    GetAllTasks initStore = [] := by
  have h := runOps_length ops initStore WF_initStore
  have hlen : (GetAllTasks (runOps initStore ops)).length =
      (runOps initStore ops).tasks.length := by
    simp [GetAllTasks]
  have hinit : initStore.tasks.length = 0 := rfl
  refine ⟨?_, ?_, rfl⟩ <;> omega

/-- C9 counterexample: for a 100 000 000-hour estimate the rounded value
6 000 000 000 does not fit a Java `int`, so the narrowing cast in
`convertHoursToMinutes` wraps and the stored minutes are 1 705 032 704, not
`round(hours * 60)`. All double operations involved are exact at this input,
so the rational idealisation coincides with the Java computation. -/
theorem C9_counterexample :
    convertHoursToMinutes 100000000 = 1705032704 ∧
    javaMathRound ((100000000 : ℚ) * 60) = 6000000000 ∧
    (1705032704 : Int) ≠ 6000000000 := by
  refine ⟨?_, ?_, by norm_num⟩ <;>
    norm_num [convertHoursToMinutes, javaMathRound, intCast32]

/-- C9 (amended): the mapper surfaces a stored duration of `m` minutes as
exactly `m / 60` hours on read, and — whenever the half-up-rounded value
`round(hours * 60)` fits in a signed 32-bit integer — both the update path
and the create path store exactly `⌊hours * 60 + 1/2⌋` minutes (round half
up), the canonical integer-minutes state, never a re-converted value.
Doubles are idealised as rationals. -/
theorem C9_conversion_in_range (m : Int) (t : JTask) (r : TaskRequest)
    (id now : Int)
    (h1 : -(2 ^ 31) ≤ javaMathRound (r.estimatedTime * 60))
    (h2 : javaMathRound (r.estimatedTime * 60) < 2 ^ 31) :
    toResponseDuration m = (m : ℚ) / 60 ∧
    (updateEntity t r).duration = ⌊r.estimatedTime * 60 + 1 / 2⌋ ∧
    (toEntity r id now).duration = ⌊r.estimatedTime * 60 + 1 / 2⌋ := by
  have hc : convertHoursToMinutes r.estimatedTime = ⌊r.estimatedTime * 60 + 1 / 2⌋ := by
    show intCast32 (javaMathRound (r.estimatedTime * 60)) = _
    rw [intCast32_eq_self _ h1 h2]
    rfl
  exact ⟨rfl, hc, hc⟩

/-- C9 witness: a 1.5-hour estimate rounds to 90 minutes, well inside the
32-bit range, and the update path stores exactly that. -/
theorem C9_witness :
    (-(2 ^ 31) ≤ javaMathRound ((3 / 2 : ℚ) * 60) ∧
      javaMathRound ((3 / 2 : ℚ) * 60) < 2 ^ 31) ∧
    (updateEntity jtask0 ⟨"t", "d", 3 / 2⟩).duration = ⌊(3 / 2 : ℚ) * 60 + 1 / 2⌋ := by
  have h1 : javaMathRound ((3 / 2 : ℚ) * 60) = 90 := by
    norm_num [javaMathRound]
  refine ⟨⟨by rw [h1]; norm_num, by rw [h1]; norm_num⟩, ?_⟩
  exact (C9_conversion_in_range 0 jtask0 ⟨"t", "d", 3 / 2⟩ 0 0
    (by show -(2 ^ 31) ≤ javaMathRound ((3 / 2 : ℚ) * 60); rw [h1]; norm_num)
    (by show javaMathRound ((3 / 2 : ℚ) * 60) < 2 ^ 31; rw [h1]; norm_num)).2.1

/-- C10: on a well-formed store, `CreateTask` leaves every previously stored
task unchanged, and a successful `UpdateTask` or `DeleteTask` on some id
leaves the task stored under every other id unchanged. -/
theorem C10_frame (s : Store) (hwf : WF s) :
    (∀ (input : TaskInput) (k : Int) (t0 : Task), mfind s.tasks k = some t0 →
      mfind (CreateTask s input).2.tasks k = some t0) ∧
    (∀ (id : Int) (input : TaskInput) (t1 : Task) (s1 : Store),
      UpdateTask s id input = some (t1, s1) →
      ∀ k : Int, k ≠ id → mfind s1.tasks k = mfind s.tasks k) ∧
    (∀ (id : Int) (s1 : Store), DeleteTask s id = some s1 →
      ∀ k : Int, k ≠ id → mfind s1.tasks k = mfind s.tasks k) := by
  refine ⟨?_, ?_, ?_⟩
  · intro input k t0 hk
    have hne : k ≠ s.nextID := by
      intro he
      rw [he, mfind_nextID_none s hwf] at hk
      cases hk
    show mfind (minsert s.tasks s.nextID _) k = some t0
    rw [mfind_minsert_ne _ _ _ _ hne]
    exact hk
  · intro id input t1 s1 hu k hk
    unfold UpdateTask at hu
    cases hf : mfind s.tasks id with
    | none => rw [hf] at hu; exact absurd hu (by simp)
    | some task =>
      rw [hf] at hu
      simp only [Option.some_inj, Prod.mk.injEq] at hu
      obtain ⟨ht1, hs1⟩ := hu
      subst hs1
      exact mfind_minsert_ne _ _ _ _ hk
  · intro id s1 hd k hk
    unfold DeleteTask at hd
    cases hf : mfind s.tasks id with
    | none => rw [hf] at hd; exact absurd hd (by simp)
    | some task =>
      rw [hf] at hd
      simp only [Option.some_inj] at hd
      subst hd
      exact mfind_merase_ne _ _ _ hk

/-- C10 witness: creating a second task in the one-task store leaves the
task stored under id 1 exactly as it was. -/
theorem C10_witness :
    WF storeEx ∧ mfind (CreateTask storeEx inputEx).2.tasks 1 = some taskEx :=
  ⟨storeEx_WF, (C10_frame storeEx storeEx_WF).1 inputEx 1 taskEx rfl⟩

end TaskApi
